import Mathlib

/-!
# Verification of the git-branchless hook layer

A shallow embedding of `src/commands/hooks.rs` (the Git hook handlers of
git-branchless) together with the pieces of the surrounding core that the
hooks touch.  Pure Rust string manipulation is translated into executable
Lean functions over `List Char`; the stateful pieces (the event-log
database, standard input, the repository) are made explicit: every hook is
a function from its inputs and the database state to a `HookResult`, which
records both the final outcome (`Except`) and a trace of the observable
actions the hook performed, in order.

Components of the repository that the hooks call but whose sources are not
part of this code drop (oid parsing, the transient-ref exclusion policy,
the event replayer, graph construction, abandoned-children analysis) are
modelled from the specification; each such definition is marked
`Modelled from the spec:` in its doc comment.  Graph construction and
abandoned-children analysis are kept fully abstract as a `CoreEnv` record
of function parameters, so that every theorem about the hook layer holds
for *every* behaviour of those components.
-/

namespace GitBranchless

/-! ## Characters and strings

Rust string primitives used by the hooks, translated to structurally
recursive functions over `List Char` so that they evaluate inside the
kernel. -/

/-- Rust `char::is_whitespace`, restricted to the ASCII whitespace that can
occur in hook input lines. -/
def isWhitespaceChar (c : Char) : Bool := c == ' ' || c == '\t' || c == '\n' || c == '\r'

/-- Trim whitespace from both ends of a character list (Rust `str::trim`). -/
def trimChars (cs : List Char) : List Char :=
  ((cs.dropWhile isWhitespaceChar).reverse.dropWhile isWhitespaceChar).reverse

/-- Rust `str::trim`. -/
def rustTrim (s : String) : String := String.mk (trimChars s.data)

/-- Split a character list at every occurrence of `delim`; consecutive
delimiters and a trailing delimiter produce empty segments, exactly like
Rust `str::split`. -/
def splitCharsAux (delim : Char) : List Char → List Char → List (List Char)
  | [], acc => [acc.reverse]
  | c :: rest, acc =>
    if c == delim then acc.reverse :: splitCharsAux delim rest []
    else splitCharsAux delim rest (c :: acc)

/-- Rust `str::split(delim)`, collected to a list. -/
def strSplit (delim : Char) (s : String) : List String :=
  (splitCharsAux delim s.data []).map String.mk

/-- Rust `BufRead::split(delim)`, collected to a list: like `str::split`,
except that empty input yields no segments and a trailing delimiter does
not produce a final empty segment. -/
def bufSplit (delim : Char) (s : String) : List String :=
  if s.data.isEmpty then []
  else if s.data.getLast? == some delim then (strSplit delim s).dropLast
  else strSplit delim s

/-! ## Oids

`NonZeroOid` and `MaybeZeroOid` from `git-branchless-lib/src/git/oid.rs`
(re-exported by the `git/mod.rs` in the code drop; the implementation file
itself is not included). -/

/-- Is `c` a hexadecimal digit? -/
def isHexChar (c : Char) : Bool :=
  c.isDigit || (decide ('a' ≤ c) && decide (c ≤ 'f')) || (decide ('A' ≤ c) && decide (c ≤ 'F'))

/-- Is `s` a syntactically valid (possibly abbreviated) object-id string:
hexadecimal and at most 40 characters? -/
def isValidOidStr (s : String) : Bool :=
  decide (s.data.length ≤ 40) && s.data.all isHexChar

/-- Does `s` denote the all-zero sentinel oid? -/
def isZeroOidStr (s : String) : Bool := s.data.all (fun c => c == '0')

/-- An oid that is guaranteed not to be the all-zero sentinel. -/
structure NonZeroOid where
  hex : String
deriving DecidableEq, Repr

/-- An oid that may be the all-zero sentinel, meaning "absent/deleted". -/
inductive MaybeZeroOid where
  | zero : MaybeZeroOid
  | nonZero : NonZeroOid → MaybeZeroOid
deriving DecidableEq, Repr

/-- Modelled from the spec: oid parsing at the hook boundary (the
implementation lives in `git/oid.rs`, which is not part of the code drop).
"Two flavors must be distinguished at the type level: NonZeroOid
(guaranteed to reference a real object) and MaybeZeroOid (may be the
all-zero sentinel meaning absent/deleted)".  A hex string of at most 40
characters parses; the all-zero string parses to the sentinel. -/
def MaybeZeroOid.parse (s : String) : Except String MaybeZeroOid :=
  if isValidOidStr s then
    if isZeroOidStr s then .ok .zero else .ok (.nonZero ⟨s⟩)
  else .error ("could not parse OID: " ++ s)

/-- Modelled from the spec: parsing an oid that must reference a real
object; the all-zero sentinel is rejected. -/
def NonZeroOid.parse (s : String) : Except String NonZeroOid :=
  match MaybeZeroOid.parse s with
  | .error e => .error e
  | .ok .zero => .error ("expected a non-zero OID: " ++ s)
  | .ok (.nonZero oid) => .ok oid

/-- The coercion `NonZeroOid -> MaybeZeroOid` (Rust `impl From`). -/
def NonZeroOid.toMaybeZero (o : NonZeroOid) : MaybeZeroOid := .nonZero o

/-! ## Events and the event-log database -/

/-- The `Event` enum from `core/eventlog.rs` (shape per the spec §3 and the
constructions visible in `hooks.rs`): a closed set of variants, each
carrying a timestamp and the owning transaction id. -/
inductive Event where
  | rewrite (timestamp : Nat) (eventTxId : Nat)
      (oldCommitOid : MaybeZeroOid) (newCommitOid : MaybeZeroOid) : Event
  | refUpdate (timestamp : Nat) (eventTxId : Nat) (refName : String)
      (oldOid : MaybeZeroOid) (newOid : MaybeZeroOid) (message : Option String) : Event
  | commit (timestamp : Nat) (eventTxId : Nat) (commitOid : NonZeroOid) : Event
  | hide (timestamp : Nat) (eventTxId : Nat) (commitOid : NonZeroOid) : Event
  | unhide (timestamp : Nat) (eventTxId : Nat) (commitOid : NonZeroOid) : Event
deriving DecidableEq, Repr

/-- The transaction id carried by an event. -/
def Event.txId : Event → Nat
  | .rewrite _ t _ _ => t
  | .refUpdate _ t _ _ _ _ => t
  | .commit _ t _ => t
  | .hide _ t _ => t
  | .unhide _ t _ => t

/-- The ref name carried by a `refUpdate` event, if any. -/
def Event.refNameO : Event → Option String
  | .refUpdate _ _ rn _ _ _ => some rn
  | _ => none

/-- Is this event a `refUpdate`? -/
def Event.isRefUpdate : Event → Bool
  | .refUpdate _ _ _ _ _ _ => true
  | _ => false

/-- The state of the `EventLogDb`: the durable append-only event sequence
and the transaction-id allocator.  `appendFails` models an I/O failure of
the underlying storage during append. -/
structure EventLogDb where
  events : List Event
  nextTxId : Nat
  appendFails : Bool
deriving DecidableEq, Repr

/-- `EventLogDb::make_transaction_id`: allocate a fresh monotonically
increasing transaction id (the persisted wall-clock time and command name
are diagnostics and are not part of the state we track). -/
def make_transaction_id (db : EventLogDb) (_commandName : String) : Nat × EventLogDb :=
  (db.nextTxId, { db with nextTxId := db.nextTxId + 1 })

/-- `EventLogDb::add_events`: append all given events atomically; an I/O
failure is reported as an error. -/
def add_events (db : EventLogDb) (events : List Event) : Except String EventLogDb :=
  if db.appendFails then .error "I/O error while appending to the event log"
  else .ok { db with events := db.events ++ events }

/-- Modelled from the spec: the transient-ref exclusion policy
`should_ignore_ref_updates` from `core/eventlog.rs` (not part of the code
drop): "a ref-name exclusion policy for transient/internal refs".  The
unit test in `hooks.rs` pins `ORIG_HEAD` as excluded and
`refs/heads/mybranch` as not excluded. -/
def should_ignore_ref_updates (refName : String) : Bool :=
  refName == "ORIG_HEAD" || refName == "CHERRY_PICK_HEAD" || refName == "REBASE_HEAD"
    || refName == "FETCH_HEAD"

/-! ## The repository capability and the abstract core environment -/

/-- A commit, as far as the hooks observe one. -/
structure Commit where
  oid : NonZeroOid
  timeSeconds : Nat
deriving DecidableEq, Repr

/-- The `Repository` capability plus the bits of ambient repository state
the hooks read (rebase state, configuration). -/
structure Repo where
  headOid : Option NonZeroOid
  mainBranchOid : NonZeroOid
  branchOidToNames : List (NonZeroOid × List String)
  findCommit : NonZeroOid → Option Commit
  isRebaseUnderway : Bool
  restackWarnAbandoned : Bool
  extraPostRewriteFileExists : Bool

/-- The commit graph produced by `make_graph`; its structure is irrelevant
to the hook layer, which only passes it through. -/
abbrev Graph := List (NonZeroOid × List NonZeroOid)

/-- Modelled from the spec: the core components the hooks call whose
sources are not part of the code drop (`make_graph` from `core/graph.rs`,
`find_abandoned_children` from `core/rewrite.rs`).  They are kept fully
abstract, as function parameters, so every theorem below holds for every
behaviour of these components.  `make_graph` receives the replayer's event
snapshot, the cursor, head oid, main-branch oid, branch oids and the
`hide_branches` flag; `find_abandoned_children` receives the graph, the
replayer snapshot, the cursor and the rewritten old oid, and returns the
rewritten-to oid together with the abandoned children, if any. -/
structure CoreEnv where
  make_graph : List Event → Nat → Option NonZeroOid → NonZeroOid → List NonZeroOid → Bool → Graph
  find_abandoned_children :
    Graph → List Event → Nat → NonZeroOid → Option (MaybeZeroOid × List NonZeroOid)

/-- Modelled from the spec: the `EventReplayer` (from `core/eventlog.rs`,
not part of the code drop) "snapshots the log at construction time"; only
that snapshot matters to the hook layer. -/
structure EventReplayer where
  events : List Event
deriving DecidableEq, Repr

/-- `EventReplayer::from_event_log_db`: construct a replayer over the
current contents of the event log. -/
def EventReplayer.from_event_log_db (db : EventLogDb) : EventReplayer := ⟨db.events⟩

/-- `EventReplayer::make_default_cursor`: the end of the current log. -/
def EventReplayer.make_default_cursor (r : EventReplayer) : Nat := r.events.length

/-! ## Hook actions and results -/

/-- One observable action performed by a hook, in execution order. -/
inductive Action where
  | makeTransactionId (txId : Nat) (commandName : String) : Action
  | addEvents (events : List Event) : Action
  | constructReplayer (snapshot : List Event) : Action
  | output (msg : String) : Action
  | logWarning (msg : String) : Action
  | logError (msg : String) : Action
  | markCommitReachable (oid : NonZeroOid) : Action
  | moveBranches (txId : Nat) (rewrittenOids : List (NonZeroOid × MaybeZeroOid)) : Action
  | warnReport (abandonedChildren : List NonZeroOid) (abandonedBranches : List String) : Action
deriving DecidableEq, Repr

/-- The events carried by an `addEvents` action. -/
def Action.eventsOf : Action → List Event
  | .addEvents es => es
  | _ => []

/-- Is this an `addEvents` action? -/
def Action.isAddEvents : Action → Bool
  | .addEvents _ => true
  | _ => false

/-- Is this an `output` (stdout) action? -/
def Action.isOutput : Action → Bool
  | .output _ => true
  | _ => false

/-- Is this a `logWarning` action? -/
def Action.isLogWarning : Action → Bool
  | .logWarning _ => true
  | _ => false

/-- Is this a `logError` action? -/
def Action.isLogError : Action → Bool
  | .logError _ => true
  | _ => false

/-- Is this a `warnReport` action? -/
def Action.isWarnReport : Action → Bool
  | .warnReport _ _ => true
  | _ => false

/-- Is this a `constructReplayer` action? -/
def Action.isConstructReplayer : Action → Bool
  | .constructReplayer _ => true
  | _ => false

/-- All events passed to `add_events` calls in a trace, in order. -/
def appendedEvents : List Action → List Event
  | [] => []
  | a :: rest => a.eventsOf ++ appendedEvents rest

/-- The transaction ids allocated in a trace, in order. -/
def txIdsMade : List Action → List Nat
  | [] => []
  | .makeTransactionId t _ :: rest => t :: txIdsMade rest
  | _ :: rest => txIdsMade rest

/-- The transaction discipline of a trace: no events are appended before a
transaction id is allocated, at most one transaction id is allocated, and
every event appended after the allocation carries the allocated id. -/
def txDisciplineOk : List Action → Bool
  | [] => true
  | .makeTransactionId t _ :: rest =>
    (txIdsMade rest).isEmpty && (appendedEvents rest).all (fun e => e.txId == t)
  | .addEvents _ :: _ => false
  | _ :: rest => txDisciplineOk rest

/-- The outcome of one hook invocation: the trace of observable actions
performed and the final result (the updated database on success, the
propagated error otherwise). -/
structure HookResult where
  trace : List Action
  result : Except String EventLogDb

/-- Did this computation end in an error? -/
def isErrorResult {α : Type} : Except String α → Bool
  | .error _ => true
  | .ok _ => false

/-- Did this computation fail with a defect-level ("BUG: ...") error? -/
def isBugError : Except String EventLogDb → Bool
  | .error msg => msg.data.take 4 == ['B', 'U', 'G', ':']
  | .ok _ => false

/-! ## The post-rewrite hook (`hook_post_rewrite`, hooks.rs lines 40-107) -/

/-- The inputs of one `post-rewrite` hook invocation: the `rewrite_type`
command-line argument, the lines read from standard input, and the
wall-clock timestamp taken at entry. -/
structure PostRewriteInput where
  rewriteType : String
  stdinLines : List String
  timestamp : Nat

/-- One line of the post-rewrite loop (hooks.rs lines 52-69): trim, split
on spaces, require at least an old and a new oid field, parse the old oid
as a `NonZeroOid` and the new one as a `MaybeZeroOid`; any other shape is
an error (`anyhow::bail!`). Returns the `(old, new)` pair inserted into
`rewritten_oids` and the constructed `RewriteEvent`. -/
def parse_rewrite_line (timestamp eventTxId : Nat) (line : String) :
    Except String ((NonZeroOid × MaybeZeroOid) × Event) :=
  match strSplit ' ' (rustTrim line) with
  | oldField :: newField :: _ =>
    match NonZeroOid.parse oldField with
    | .error e => .error e
    | .ok oldCommitOid =>
      match MaybeZeroOid.parse newField with
      | .error e => .error e
      | .ok newCommitOid =>
        .ok ((oldCommitOid, newCommitOid),
          Event.rewrite timestamp eventTxId oldCommitOid.toMaybeZero newCommitOid)
  | _ => .error ("Invalid rewrite line: " ++ rustTrim line)

/-- The stdin loop of the post-rewrite hook (hooks.rs lines 49-72): parse
every line in order, stopping with the error of the first malformed line;
on success, return the `(old, new)` pairs and the events, one per line, in
line order. -/
def parse_rewrite_lines (timestamp eventTxId : Nat) :
    List String → Except String (List (NonZeroOid × MaybeZeroOid) × List Event)
  | [] => .ok ([], [])
  | line :: rest =>
    match parse_rewrite_line timestamp eventTxId line with
    | .error e => .error e
    | .ok (pair, event) =>
      match parse_rewrite_lines timestamp eventTxId rest with
      | .error e => .error e
      | .ok (pairs, events) => .ok (pair :: pairs, event :: events)

/-- Insert into an association list, replacing the value of an existing
key (Rust `HashMap::insert`). -/
def insertAssoc (k : NonZeroOid) (v : MaybeZeroOid) :
    List (NonZeroOid × MaybeZeroOid) → List (NonZeroOid × MaybeZeroOid)
  | [] => [(k, v)]
  | (k', v') :: rest => if k' = k then (k, v) :: rest else (k', v') :: insertAssoc k v rest

/-- The `rewritten_oids` map accumulated by the stdin loop: each line's
pair inserted in order, later lines overriding earlier ones. -/
def buildRewrittenOids (pairs : List (NonZeroOid × MaybeZeroOid)) :
    List (NonZeroOid × MaybeZeroOid) :=
  pairs.foldl (fun m p => insertAssoc p.1 p.2 m) []

/-- `HashMap::get` on `branch_oid_to_names`. -/
def lookupAssoc (m : List (NonZeroOid × List String)) (k : NonZeroOid) : Option (List String) :=
  (m.find? (fun p => p.1 == k)).map Prod.snd

/-- `HashSet::insert`: add an element unless already present. -/
def insertSet {α : Type} [DecidableEq α] (s : List α) (x : α) : List α :=
  if x ∈ s then s else s ++ [x]

/-- `HashSet::extend`: insert every element of `xs`. -/
def extendSet {α : Type} [DecidableEq α] (s : List α) (xs : List α) : List α :=
  xs.foldl insertSet s

/-- One step of the aggregation loop of `warn_abandoned` (hooks.rs lines
138-153): query `find_abandoned_children` for one rewritten old oid;
extend the abandoned-children set, and, when the oid had abandoned
children, extend the abandoned-branch-name set with the branch names
attached to the old oid. -/
def aggregate_abandoned_step (fac : NonZeroOid → Option (MaybeZeroOid × List NonZeroOid))
    (branchOidToNames : List (NonZeroOid × List String))
    (acc : List NonZeroOid × List String) (oldCommitOid : NonZeroOid) :
    List NonZeroOid × List String :=
  match fac oldCommitOid with
  | none => acc
  | some (_rewrittenOid, abandonedChildren) =>
    let acc1 := (extendSet acc.1 abandonedChildren, acc.2)
    match lookupAssoc branchOidToNames oldCommitOid with
    | some branchNames => (acc1.1, extendSet acc1.2 branchNames)
    | none => acc1

/-- The aggregation loop of `warn_abandoned` (hooks.rs lines 135-155):
starting from two empty sets, fold `aggregate_abandoned_step` over the
batch of rewritten old oids. -/
def aggregate_abandoned (fac : NonZeroOid → Option (MaybeZeroOid × List NonZeroOid))
    (branchOidToNames : List (NonZeroOid × List String)) (oldCommitOids : List NonZeroOid) :
    List NonZeroOid × List String :=
  oldCommitOids.foldl (aggregate_abandoned_step fac branchOidToNames) ([], [])

/-- `warn_abandoned` (hooks.rs lines 110-225): construct a fresh
`EventReplayer` over the current log, build the graph, aggregate the
abandoned children and branches over the batch of rewritten old oids, and
report a warning when anything was abandoned.  In this model it returns
the trace of its observable actions. -/
def warn_abandoned (env : CoreEnv) (repo : Repo) (db : EventLogDb)
    (oldCommitOids : List NonZeroOid) : List Action :=
  let event_replayer := EventReplayer.from_event_log_db db
  let event_cursor := event_replayer.make_default_cursor
  let graph := env.make_graph event_replayer.events event_cursor repo.headOid
    repo.mainBranchOid (repo.branchOidToNames.map Prod.fst) false
  let agg := aggregate_abandoned
    (fun oldCommitOid => env.find_abandoned_children graph event_replayer.events
      event_replayer.make_default_cursor oldCommitOid)
    repo.branchOidToNames oldCommitOids
  Action.constructReplayer event_replayer.events ::
    (if 0 < agg.1.length ∨ 0 < agg.2.length then [Action.warnReport agg.1 agg.2] else [])

/-- The progress message printed by the post-rewrite hook. -/
def processing_message (n : Nat) : String :=
  "branchless: processing " ++ toString n
    ++ (if n == 1 then " rewritten commit" else " rewritten commits")

/-- `hook_post_rewrite` (hooks.rs lines 40-107): allocate a transaction
id; parse all stdin lines (the first malformed line aborts the hook);
unless the event is spurious (an `amend` while a rebase is underway),
print a progress message; append the events; optionally move branches;
and, when configured and not spurious, warn about abandoned commits. -/
def hook_post_rewrite (env : CoreEnv) (repo : Repo) (input : PostRewriteInput)
    (db : EventLogDb) : HookResult :=
  let alloc := make_transaction_id db "hook-post-rewrite"
  let eventTxId := alloc.1
  let db1 := alloc.2
  match parse_rewrite_lines input.timestamp eventTxId input.stdinLines with
  | .error e =>
    { trace := [Action.makeTransactionId eventTxId "hook-post-rewrite"], result := .error e }
  | .ok (pairs, events) =>
    let rewrittenOids := buildRewrittenOids pairs
    let isSpuriousEvent := input.rewriteType == "amend" && repo.isRebaseUnderway
    let t1 := Action.makeTransactionId eventTxId "hook-post-rewrite" ::
      ((if isSpuriousEvent then [] else [Action.output (processing_message events.length)])
        ++ [Action.addEvents events])
    match add_events db1 events with
    | .error e => { trace := t1, result := .error e }
    | .ok db2 =>
      let t2 := t1 ++
        (if repo.extraPostRewriteFileExists
          then [Action.moveBranches eventTxId rewrittenOids] else [])
      if repo.restackWarnAbandoned && !isSpuriousEvent then
        { trace := t2 ++ warn_abandoned env repo db2 (rewrittenOids.map Prod.fst),
          result := .ok db2 }
      else
        { trace := t2, result := .ok db2 }

/-! ## The reference-transaction hook (hooks.rs lines 367-478) -/

/-- `parse_reference_transaction_line` (hooks.rs lines 367-411): split the
line on spaces into exactly three fields `old-value new-value ref-name`
(any other count is an error); if the ref is excluded by
`should_ignore_ref_updates`, produce no event; otherwise parse both oids
and produce a `RefUpdateEvent`. -/
def parse_reference_transaction_line (line : String) (now : Nat) (eventTxId : Nat) :
    Except String (Option Event) :=
  match bufSplit ' ' line with
  | [old_value, new_value, ref_name] =>
    if should_ignore_ref_updates ref_name then .ok none
    else
      match MaybeZeroOid.parse old_value with
      | .error e => .error e
      | .ok oldOid =>
        match MaybeZeroOid.parse new_value with
        | .error e => .error e
        | .ok newOid =>
          .ok (some (Event.refUpdate now eventTxId ref_name oldOid newOid none))
  | _ => .error "Unexpected number of fields in reference-transaction line"

/-- The event produced by a reference-transaction line, if any: `none` for
both excluded refs and malformed lines. -/
def parse_event_opt (now eventTxId : Nat) (line : String) : Option Event :=
  match parse_reference_transaction_line line now eventTxId with
  | .ok (some e) => some e
  | _ => none

/-- The stdin loop of the reference-transaction hook (hooks.rs lines
428-444): each line is parsed; a parse error is logged and the line
skipped; excluded refs are skipped silently.  Returns the error-log
actions and the collected events. -/
def collectRefTxnEvents (now eventTxId : Nat) : List String → List Action × List Event
  | [] => ([], [])
  | line :: rest =>
    let tail := collectRefTxnEvents now eventTxId rest
    match parse_reference_transaction_line line now eventTxId with
    | .ok (some e) => (tail.1, e :: tail.2)
    | .ok none => tail
    | .error err =>
      (Action.logError ("Could not parse reference-transaction-line: " ++ err) :: tail.1,
        tail.2)

/-- `hook_reference_transaction` (hooks.rs lines 417-478): nothing happens
unless the transaction state is `committed`; then a transaction id is
allocated, the stdin lines are parsed (malformed lines logged and
skipped), and, when any events were produced, a summary is printed and the
events are appended. -/
def hook_reference_transaction (transactionState : String) (now : Nat)
    (stdinLines : List String) (db : EventLogDb) : HookResult :=
  if transactionState == "committed" then
    let alloc := make_transaction_id db "reference-transaction"
    let eventTxId := alloc.1
    let db1 := alloc.2
    let collected := collectRefTxnEvents now eventTxId stdinLines
    let t0 := Action.makeTransactionId eventTxId "reference-transaction" :: collected.1
    if collected.2.isEmpty then { trace := t0, result := .ok db1 }
    else
      let t1 := t0 ++
        [Action.output ("branchless: processing " ++ toString collected.2.length ++ " updates"),
          Action.addEvents collected.2]
      match add_events db1 collected.2 with
      | .error e => { trace := t1, result := .error e }
      | .ok db2 => { trace := t1, result := .ok db2 }
  else { trace := [], result := .ok db }

/-! ## The post-checkout hook (hooks.rs lines 290-319) -/

/-- `hook_post_checkout` (hooks.rs lines 290-319): nothing happens unless
this is a branch checkout; then a message is printed, a transaction id is
allocated, the two head oids are parsed as `MaybeZeroOid`s (a parse
failure aborts the hook), and a single `RefUpdateEvent` on `HEAD` is
appended. -/
def hook_post_checkout (previousHeadOid currentHeadOid : String) (isBranchCheckout : Int)
    (now : Nat) (db : EventLogDb) : HookResult :=
  if isBranchCheckout = 0 then { trace := [], result := .ok db }
  else
    let alloc := make_transaction_id db "hook-post-checkout"
    let eventTxId := alloc.1
    let db1 := alloc.2
    let t0 := [Action.output "branchless: processing checkout",
      Action.makeTransactionId eventTxId "hook-post-checkout"]
    match MaybeZeroOid.parse previousHeadOid with
    | .error e => { trace := t0, result := .error e }
    | .ok oldOid =>
      match MaybeZeroOid.parse currentHeadOid with
      | .error e => { trace := t0, result := .error e }
      | .ok newOid =>
        let events := [Event.refUpdate now eventTxId "HEAD" oldOid newOid none]
        match add_events db1 events with
        | .error e => { trace := t0 ++ [Action.addEvents events], result := .error e }
        | .ok db2 => { trace := t0 ++ [Action.addEvents events], result := .ok db2 }

/-! ## The post-commit hook (hooks.rs lines 324-365) -/

/-- `hook_post_commit` (hooks.rs lines 324-365): if `HEAD` has no oid, log
a warning and return success without appending anything; if the oid is
present but the repository cannot resolve it to a commit, fail with a
defect-level `BUG:` error; otherwise mark the commit reachable, allocate a
transaction id, and append one `CommitEvent` carrying the commit's oid and
timestamp. -/
def hook_post_commit (repo : Repo) (_now : Nat) (db : EventLogDb) : HookResult :=
  match repo.headOid with
  | none =>
    { trace := [Action.logWarning
        "post-commit hook called, but could not determine the OID of HEAD"],
      result := .ok db }
  | some commitOid =>
    match repo.findCommit commitOid with
    | none =>
      { trace := [],
        result := .error
          ("BUG: Attempted to look up current HEAD commit, but it could not be found: "
            ++ commitOid.hex) }
    | some commit =>
      let alloc := make_transaction_id db "hook-post-commit"
      let eventTxId := alloc.1
      let db1 := alloc.2
      let events := [Event.commit commit.timeSeconds eventTxId commit.oid]
      let t0 := [Action.markCommitReachable commitOid,
        Action.makeTransactionId eventTxId "hook-post-commit", Action.addEvents events]
      match add_events db1 events with
      | .error e => { trace := t0, result := .error e }
      | .ok db2 =>
        { trace := t0 ++ [Action.output "branchless: processed commit"], result := .ok db2 }

/-! ## Helper lemmas about traces -/

theorem appendedEvents_append (a b : List Action) :
    appendedEvents (a ++ b) = appendedEvents a ++ appendedEvents b := by
  induction a with
  | nil => simp [appendedEvents]
  | cons x rest ih => simp [appendedEvents, ih]

theorem txIdsMade_append (a b : List Action) :
    txIdsMade (a ++ b) = txIdsMade a ++ txIdsMade b := by
  induction a with
  | nil => simp [txIdsMade]
  | cons x rest ih => cases x <;> simp [txIdsMade, ih]

/-! ## Parsing lemmas: post-rewrite lines -/

theorem parse_rewrite_line_ok (ts tx : Nat) (line : String) (p : NonZeroOid × MaybeZeroOid)
    (e : Event) (h : parse_rewrite_line ts tx line = .ok (p, e)) :
    e = Event.rewrite ts tx (MaybeZeroOid.nonZero p.1) p.2 := by
  unfold parse_rewrite_line at h
  split at h
  · split at h
    · cases h
    · split at h
      · cases h
      · simp only [Except.ok.injEq, Prod.mk.injEq] at h
        obtain ⟨h1, h2⟩ := h
        subst h1; subst h2
        rfl
  · cases h

theorem parse_rewrite_lines_forall2 (ts tx : Nat) (lines : List String)
    (ps : List (NonZeroOid × MaybeZeroOid)) (es : List Event)
    (h : parse_rewrite_lines ts tx lines = .ok (ps, es)) :
    List.Forall₂ (fun line e => ∃ p, parse_rewrite_line ts tx line = .ok (p, e)) lines es := by
  induction lines generalizing ps es with
  | nil =>
    unfold parse_rewrite_lines at h
    simp only [Except.ok.injEq, Prod.mk.injEq] at h
    obtain ⟨h1, h2⟩ := h
    subst h2
    exact List.Forall₂.nil
  | cons line rest ih =>
    unfold parse_rewrite_lines at h
    split at h
    · cases h
    · rename_i pair event hline
      split at h
      · cases h
      · rename_i pairs events hrest
        simp only [Except.ok.injEq, Prod.mk.injEq] at h
        obtain ⟨h1, h2⟩ := h
        subst h2
        exact List.Forall₂.cons ⟨pair, hline⟩ (ih pairs events hrest)

theorem parse_rewrite_lines_length (ts tx : Nat) (lines : List String)
    (ps : List (NonZeroOid × MaybeZeroOid)) (es : List Event)
    (h : parse_rewrite_lines ts tx lines = .ok (ps, es)) : es.length = lines.length :=
  (List.Forall₂.length_eq (parse_rewrite_lines_forall2 ts tx lines ps es h)).symm

theorem forall2_mem_right {α β : Type} {R : α → β → Prop} {l₁ : List α} {l₂ : List β}
    (h : List.Forall₂ R l₁ l₂) : ∀ b ∈ l₂, ∃ a ∈ l₁, R a b := by
  induction h with
  | nil => intro b hb; cases hb
  | cons hr _ ih =>
    intro b hb
    rcases List.mem_cons.mp hb with rfl | hb
    · exact ⟨_, List.mem_cons_self _ _, hr⟩
    · obtain ⟨a, ha, hab⟩ := ih b hb
      exact ⟨a, List.mem_cons_of_mem _ ha, hab⟩

theorem parse_rewrite_lines_events (ts tx : Nat) (lines : List String)
    (ps : List (NonZeroOid × MaybeZeroOid)) (es : List Event)
    (h : parse_rewrite_lines ts tx lines = .ok (ps, es)) :
    ∀ e ∈ es, ∃ o n, e = Event.rewrite ts tx (MaybeZeroOid.nonZero o) n := by
  intro e he
  obtain ⟨line, _hline, p, hp⟩ :=
    forall2_mem_right (parse_rewrite_lines_forall2 ts tx lines ps es h) e he
  exact ⟨p.1, p.2, parse_rewrite_line_ok ts tx line p e hp⟩

theorem parse_rewrite_lines_events_tx (ts tx : Nat) (lines : List String)
    (ps : List (NonZeroOid × MaybeZeroOid)) (es : List Event)
    (h : parse_rewrite_lines ts tx lines = .ok (ps, es)) :
    ∀ e ∈ es, Event.txId e = tx := by
  intro e he
  obtain ⟨o, n, rfl⟩ := parse_rewrite_lines_events ts tx lines ps es h e he
  rfl

/-! ## Parsing lemmas: reference-transaction lines -/

theorem parse_reference_transaction_line_ignored (line : String) (now tx : Nat)
    (o n r : String) (hsplit : bufSplit ' ' line = [o, n, r])
    (hign : should_ignore_ref_updates r = true) :
    parse_reference_transaction_line line now tx = .ok none := by
  unfold parse_reference_transaction_line
  rw [hsplit]
  simp [hign]

theorem parse_reference_transaction_line_some (line : String) (now tx : Nat) (e : Event)
    (h : parse_reference_transaction_line line now tx = .ok (some e)) :
    ∃ o n r oldOid newOid,
      bufSplit ' ' line = [o, n, r]
        ∧ should_ignore_ref_updates r = false
        ∧ MaybeZeroOid.parse o = .ok oldOid
        ∧ MaybeZeroOid.parse n = .ok newOid
        ∧ e = Event.refUpdate now tx r oldOid newOid none := by
  unfold parse_reference_transaction_line at h
  split at h
  · rename_i o n r hsplit
    split at h
    · cases h
    · rename_i hign
      split at h
      · cases h
      · rename_i oldOid hold
        split at h
        · cases h
        · rename_i newOid hnew
          simp only [Except.ok.injEq, Option.some.injEq] at h
          exact ⟨o, n, r, oldOid, newOid, by assumption, by simpa using hign, hold, hnew, h.symm⟩
  · cases h

theorem parse_event_opt_tx_and_shape (now tx : Nat) (line : String) (e : Event)
    (h : parse_event_opt now tx line = some e) :
    Event.txId e = tx ∧ Event.isRefUpdate e = true
      ∧ ∀ rn, Event.refNameO e = some rn → should_ignore_ref_updates rn = false := by
  unfold parse_event_opt at h
  split at h
  · rename_i hp
    simp only [Option.some.injEq] at h
    subst h
    obtain ⟨o, n, r, oldOid, newOid, _, hign, _, _, rfl⟩ :=
      parse_reference_transaction_line_some _ _ _ _ hp
    refine ⟨rfl, rfl, ?_⟩
    intro rn hrn
    simp only [Event.refNameO, Option.some.injEq] at hrn
    subst hrn
    exact hign
  · cases h

/-! ## The collected reference-transaction events -/

theorem collectRefTxnEvents_events (now tx : Nat) (lines : List String) :
    (collectRefTxnEvents now tx lines).2 = lines.filterMap (parse_event_opt now tx) := by
  induction lines with
  | nil => rfl
  | cons line rest ih =>
    unfold collectRefTxnEvents
    cases h : parse_reference_transaction_line line now tx with
    | error e => simp [h, ih, parse_event_opt]
    | ok o => cases o <;> simp [h, ih, parse_event_opt]

theorem collectRefTxnEvents_logs_appended (now tx : Nat) (lines : List String) :
    appendedEvents (collectRefTxnEvents now tx lines).1 = [] := by
  induction lines with
  | nil => rfl
  | cons line rest ih =>
    unfold collectRefTxnEvents
    cases h : parse_reference_transaction_line line now tx with
    | error e => simp [h, ih, appendedEvents, Action.eventsOf]
    | ok o => cases o <;> simp [h, ih]

theorem collectRefTxnEvents_logs_txIds (now tx : Nat) (lines : List String) :
    txIdsMade (collectRefTxnEvents now tx lines).1 = [] := by
  induction lines with
  | nil => rfl
  | cons line rest ih =>
    unfold collectRefTxnEvents
    cases h : parse_reference_transaction_line line now tx with
    | error e => simp [h, ih, txIdsMade]
    | ok o => cases o <;> simp [h, ih]

theorem collectRefTxnEvents_logs_logError (now tx : Nat) (lines : List String) :
    ∀ a ∈ (collectRefTxnEvents now tx lines).1, a.isLogError = true := by
  induction lines with
  | nil => intro a ha; cases ha
  | cons line rest ih =>
    unfold collectRefTxnEvents
    cases h : parse_reference_transaction_line line now tx with
    | error e =>
      intro a ha
      simp only [h] at ha
      rcases List.mem_cons.mp ha with rfl | ha
      · rfl
      · exact ih a ha
    | ok o => cases o <;> simpa [h] using ih

theorem collectRefTxnEvents_has_logError (now tx : Nat) (pre post : List String) (bad : String)
    (hbad : isErrorResult (parse_reference_transaction_line bad now tx) = true) :
    ∃ a ∈ (collectRefTxnEvents now tx (pre ++ bad :: post)).1, a.isLogError = true := by
  induction pre with
  | nil =>
    unfold collectRefTxnEvents
    cases h : parse_reference_transaction_line bad now tx with
    | error e =>
      exact ⟨Action.logError ("Could not parse reference-transaction-line: " ++ e),
        by simp [h], rfl⟩
    | ok o => rw [h] at hbad; cases hbad
  | cons line rest ih =>
    obtain ⟨a, ha, hae⟩ := ih
    refine ⟨a, ?_, hae⟩
    rw [List.cons_append]
    unfold collectRefTxnEvents
    cases h : parse_reference_transaction_line line now tx with
    | error e =>
      simp only [h]
      exact List.mem_cons_of_mem _ ha
    | ok o => cases o <;> simpa [h] using ha

/-! ## Characterizations of the hook outcomes -/

theorem hook_reference_transaction_trace (now : Nat) (lines : List String) (db : EventLogDb) :
    (hook_reference_transaction "committed" now lines db).trace =
      Action.makeTransactionId db.nextTxId "reference-transaction"
          :: (collectRefTxnEvents now db.nextTxId lines).1
        ++ (if (collectRefTxnEvents now db.nextTxId lines).2.isEmpty then []
            else [Action.output ("branchless: processing "
                ++ toString (collectRefTxnEvents now db.nextTxId lines).2.length ++ " updates"),
              Action.addEvents (collectRefTxnEvents now db.nextTxId lines).2]) := by
  unfold hook_reference_transaction make_transaction_id
  cases hempty : (collectRefTxnEvents now db.nextTxId lines).2.isEmpty with
  | true => simp [hempty]
  | false =>
    cases hadd : add_events { db with nextTxId := db.nextTxId + 1 }
        (collectRefTxnEvents now db.nextTxId lines).2 with
    | error e => simp [hempty, hadd]
    | ok db2 => simp [hempty, hadd]

theorem hook_reference_transaction_result (now : Nat) (lines : List String) (db : EventLogDb) :
    (hook_reference_transaction "committed" now lines db).result =
      (if (collectRefTxnEvents now db.nextTxId lines).2.isEmpty
        then .ok { db with nextTxId := db.nextTxId + 1 }
        else add_events { db with nextTxId := db.nextTxId + 1 }
          (collectRefTxnEvents now db.nextTxId lines).2) := by
  unfold hook_reference_transaction make_transaction_id
  cases hempty : (collectRefTxnEvents now db.nextTxId lines).2.isEmpty with
  | true => simp [hempty]
  | false =>
    cases hadd : add_events { db with nextTxId := db.nextTxId + 1 }
        (collectRefTxnEvents now db.nextTxId lines).2 with
    | error e => simp [hempty, hadd]
    | ok db2 => simp [hempty, hadd]

theorem hook_reference_transaction_appended (now : Nat) (lines : List String) (db : EventLogDb) :
    appendedEvents (hook_reference_transaction "committed" now lines db).trace
      = lines.filterMap (parse_event_opt now db.nextTxId) := by
  rw [hook_reference_transaction_trace, ← collectRefTxnEvents_events]
  cases hempty : (collectRefTxnEvents now db.nextTxId lines).2.isEmpty with
  | true =>
    have h2 : (collectRefTxnEvents now db.nextTxId lines).2 = [] := by
      simpa using hempty
    simp [hempty, appendedEvents, Action.eventsOf, appendedEvents_append,
      collectRefTxnEvents_logs_appended, h2]
  | false =>
    simp [hempty, appendedEvents, Action.eventsOf, appendedEvents_append,
      collectRefTxnEvents_logs_appended]

/-! ## Deduplication lemmas for the abandoned-commit aggregation -/

theorem insertSet_nodup {α : Type} [DecidableEq α] (s : List α) (x : α) (h : s.Nodup) :
    (insertSet s x).Nodup := by
  unfold insertSet
  split
  · exact h
  · rename_i hx
    simp [List.nodup_append, h, hx]

theorem extendSet_nodup {α : Type} [DecidableEq α] (xs s : List α) (h : s.Nodup) :
    (extendSet s xs).Nodup := by
  induction xs generalizing s with
  | nil => exact h
  | cons x rest ih => exact ih _ (insertSet_nodup s x h)

theorem aggregate_abandoned_step_nodup (fac : NonZeroOid → Option (MaybeZeroOid × List NonZeroOid))
    (bm : List (NonZeroOid × List String)) (acc : List NonZeroOid × List String)
    (oid : NonZeroOid) (h1 : acc.1.Nodup) (h2 : acc.2.Nodup) :
    (aggregate_abandoned_step fac bm acc oid).1.Nodup
      ∧ (aggregate_abandoned_step fac bm acc oid).2.Nodup := by
  unfold aggregate_abandoned_step
  split
  · exact ⟨h1, h2⟩
  · split
    · exact ⟨extendSet_nodup _ _ h1, extendSet_nodup _ _ h2⟩
    · exact ⟨extendSet_nodup _ _ h1, h2⟩

theorem aggregate_abandoned_foldl_nodup
    (fac : NonZeroOid → Option (MaybeZeroOid × List NonZeroOid))
    (bm : List (NonZeroOid × List String)) (oids : List NonZeroOid)
    (acc : List NonZeroOid × List String) (h1 : acc.1.Nodup) (h2 : acc.2.Nodup) :
    (oids.foldl (aggregate_abandoned_step fac bm) acc).1.Nodup
      ∧ (oids.foldl (aggregate_abandoned_step fac bm) acc).2.Nodup := by
  induction oids generalizing acc with
  | nil => exact ⟨h1, h2⟩
  | cons oid rest ih =>
    have hstep := aggregate_abandoned_step_nodup fac bm acc oid h1 h2
    exact ih _ hstep.1 hstep.2

theorem aggregate_abandoned_nodup (fac : NonZeroOid → Option (MaybeZeroOid × List NonZeroOid))
    (bm : List (NonZeroOid × List String)) (oids : List NonZeroOid) :
    (aggregate_abandoned fac bm oids).1.Nodup ∧ (aggregate_abandoned fac bm oids).2.Nodup :=
  aggregate_abandoned_foldl_nodup fac bm oids ([], []) List.nodup_nil List.nodup_nil

/-! ## Lemmas about the `warn_abandoned` trace -/

theorem warn_abandoned_mem (env : CoreEnv) (repo : Repo) (db : EventLogDb)
    (oids : List NonZeroOid) (a : Action) (ha : a ∈ warn_abandoned env repo db oids) :
    a = Action.constructReplayer db.events
      ∨ ∃ cs bs, a = Action.warnReport cs bs ∧ cs.Nodup ∧ bs.Nodup := by
  unfold warn_abandoned at ha
  rcases List.mem_cons.mp ha with rfl | ha
  · exact Or.inl rfl
  · right
    split at ha
    · rcases List.mem_singleton.mp ha with rfl
      refine ⟨_, _, rfl, ?_, ?_⟩
      · exact (aggregate_abandoned_nodup _ _ _).1
      · exact (aggregate_abandoned_nodup _ _ _).2
    · cases ha

theorem warn_abandoned_appended (env : CoreEnv) (repo : Repo) (db : EventLogDb)
    (oids : List NonZeroOid) : appendedEvents (warn_abandoned env repo db oids) = [] := by
  unfold warn_abandoned
  dsimp only
  split <;> simp [appendedEvents, Action.eventsOf]

theorem warn_abandoned_txIds (env : CoreEnv) (repo : Repo) (db : EventLogDb)
    (oids : List NonZeroOid) : txIdsMade (warn_abandoned env repo db oids) = [] := by
  unfold warn_abandoned
  dsimp only
  split <;> simp [txIdsMade]

theorem warn_abandoned_no_output (env : CoreEnv) (repo : Repo) (db : EventLogDb)
    (oids : List NonZeroOid) :
    ∀ a ∈ warn_abandoned env repo db oids, a.isOutput = false := by
  intro a ha
  rcases warn_abandoned_mem env repo db oids a ha with rfl | ⟨cs, bs, rfl, _, _⟩ <;> rfl

/-! ## Lemmas about `add_events` -/

theorem add_events_ok (db : EventLogDb) (es : List Event) (db2 : EventLogDb)
    (h : add_events db es = .ok db2) :
    db2.events = db.events ++ es ∧ db2.nextTxId = db.nextTxId ∧ db.appendFails = false := by
  unfold add_events at h
  split at h
  · cases h
  · rename_i hf
    simp only [Except.ok.injEq] at h
    subst h
    simpa using hf

theorem add_events_isError (db : EventLogDb) (es : List Event) :
    isErrorResult (add_events db es) = db.appendFails := by
  unfold add_events
  cases h : db.appendFails <;> simp [h, isErrorResult]

/-! ## Lemmas about the post-rewrite hook -/

theorem hook_post_rewrite_parse_error (env : CoreEnv) (repo : Repo) (input : PostRewriteInput)
    (db : EventLogDb) (e : String)
    (h : parse_rewrite_lines input.timestamp db.nextTxId input.stdinLines = .error e) :
    (hook_post_rewrite env repo input db).trace
        = [Action.makeTransactionId db.nextTxId "hook-post-rewrite"]
      ∧ (hook_post_rewrite env repo input db).result = .error e := by
  unfold hook_post_rewrite make_transaction_id
  dsimp only
  rw [h]
  exact ⟨rfl, rfl⟩

theorem hook_post_rewrite_appended (env : CoreEnv) (repo : Repo) (input : PostRewriteInput)
    (db : EventLogDb) (ps : List (NonZeroOid × MaybeZeroOid)) (es : List Event)
    (h : parse_rewrite_lines input.timestamp db.nextTxId input.stdinLines = .ok (ps, es)) :
    appendedEvents (hook_post_rewrite env repo input db).trace = es := by
  unfold hook_post_rewrite make_transaction_id
  dsimp only
  rw [h]
  dsimp only
  cases hadd : add_events { db with nextTxId := db.nextTxId + 1 } es with
  | error e =>
    dsimp only
    cases hsp : input.rewriteType == "amend" && repo.isRebaseUnderway <;>
      simp [hsp, appendedEvents, Action.eventsOf, appendedEvents_append]
  | ok db2 =>
    dsimp only
    split
    · dsimp only
      rw [appendedEvents_append, warn_abandoned_appended, List.append_nil, appendedEvents_append]
      cases hsp : input.rewriteType == "amend" && repo.isRebaseUnderway <;>
        cases hmv : repo.extraPostRewriteFileExists <;>
          simp [hsp, hmv, appendedEvents, Action.eventsOf, appendedEvents_append]
    · dsimp only
      rw [appendedEvents_append]
      cases hsp : input.rewriteType == "amend" && repo.isRebaseUnderway <;>
        cases hmv : repo.extraPostRewriteFileExists <;>
          simp [hsp, hmv, appendedEvents, Action.eventsOf, appendedEvents_append]

theorem hook_post_rewrite_result (env : CoreEnv) (repo : Repo) (input : PostRewriteInput)
    (db : EventLogDb) (ps : List (NonZeroOid × MaybeZeroOid)) (es : List Event)
    (h : parse_rewrite_lines input.timestamp db.nextTxId input.stdinLines = .ok (ps, es)) :
    (hook_post_rewrite env repo input db).result
      = add_events { db with nextTxId := db.nextTxId + 1 } es := by
  unfold hook_post_rewrite make_transaction_id
  dsimp only
  rw [h]
  dsimp only
  cases hadd : add_events { db with nextTxId := db.nextTxId + 1 } es with
  | error e => rfl
  | ok db2 =>
    dsimp only
    split <;> rfl

theorem hook_post_rewrite_constructReplayer (env : CoreEnv) (repo : Repo)
    (input : PostRewriteInput) (db : EventLogDb) (snap : List Event)
    (h : Action.constructReplayer snap ∈ (hook_post_rewrite env repo input db).trace) :
    ∃ ps es, parse_rewrite_lines input.timestamp db.nextTxId input.stdinLines = .ok (ps, es)
      ∧ snap = db.events ++ es := by
  cases hp : parse_rewrite_lines input.timestamp db.nextTxId input.stdinLines with
  | error e =>
    rw [(hook_post_rewrite_parse_error env repo input db e hp).1] at h
    simp at h
  | ok pe =>
    obtain ⟨ps, es⟩ := pe
    refine ⟨ps, es, rfl, ?_⟩
    unfold hook_post_rewrite make_transaction_id at h
    dsimp only at h
    rw [hp] at h
    dsimp only at h
    cases hadd : add_events { db with nextTxId := db.nextTxId + 1 } es with
    | error e =>
      rw [hadd] at h
      dsimp only at h
      rcases List.mem_cons.mp h with habs | h
      · cases habs
      · rcases List.mem_append.mp h with h | h
        · split at h <;> simp at h
        · simp at h
    | ok db2 =>
      rw [hadd] at h
      dsimp only at h
      have hdb2 := add_events_ok _ _ _ hadd
      split at h
      · dsimp only at h
        rcases List.mem_cons.mp h with habs | h
        · cases habs
        · rcases List.mem_append.mp h with h | h
          · rcases List.mem_append.mp h with h | h
            · rcases List.mem_append.mp h with h | h
              · split at h <;> simp at h
              · simp at h
            · split at h <;> simp at h
          · rcases warn_abandoned_mem env repo db2 _ _ h with heq | ⟨cs, bs, heq, _, _⟩
            · injection heq with hsnap
              rw [hsnap, hdb2.1]
            · cases heq
      · dsimp only at h
        rcases List.mem_cons.mp h with habs | h
        · cases habs
        · rcases List.mem_append.mp h with h | h
          · rcases List.mem_append.mp h with h | h
            · split at h <;> simp at h
            · simp at h
          · split at h <;> simp at h

/-! ## Transaction discipline -/

theorem txDisciplineOk_makeTx_cons (t : Nat) (nm : String) (rest : List Action)
    (h1 : txIdsMade rest = []) (h2 : ∀ e ∈ appendedEvents rest, Event.txId e = t) :
    txDisciplineOk (Action.makeTransactionId t nm :: rest) = true := by
  unfold txDisciplineOk
  rw [h1]
  simp only [List.isEmpty_nil, Bool.true_and, List.all_eq_true]
  intro e he
  simp [h2 e he]

theorem collectRefTxnEvents_events_tx (now tx : Nat) (lines : List String) :
    ∀ e ∈ (collectRefTxnEvents now tx lines).2, Event.txId e = tx := by
  rw [collectRefTxnEvents_events]
  intro e he
  obtain ⟨line, -, hp⟩ := List.mem_filterMap.mp he
  exact (parse_event_opt_tx_and_shape now tx line e hp).1

theorem hook_post_rewrite_txDiscipline (env : CoreEnv) (repo : Repo) (input : PostRewriteInput)
    (db : EventLogDb) : txDisciplineOk (hook_post_rewrite env repo input db).trace = true := by
  cases hp : parse_rewrite_lines input.timestamp db.nextTxId input.stdinLines with
  | error e =>
    rw [(hook_post_rewrite_parse_error env repo input db e hp).1]
    rfl
  | ok pe =>
    obtain ⟨ps, es⟩ := pe
    have hes := parse_rewrite_lines_events_tx _ _ _ _ _ hp
    unfold hook_post_rewrite make_transaction_id
    dsimp only
    rw [hp]
    dsimp only
    cases hadd : add_events { db with nextTxId := db.nextTxId + 1 } es with
    | error e =>
      dsimp only
      apply txDisciplineOk_makeTx_cons
      · rw [txIdsMade_append]
        cases hsp : input.rewriteType == "amend" && repo.isRebaseUnderway <;>
          simp [hsp, txIdsMade]
      · rw [appendedEvents_append]
        cases hsp : input.rewriteType == "amend" && repo.isRebaseUnderway <;>
          simpa [hsp, appendedEvents, Action.eventsOf] using hes
    | ok db2 =>
      dsimp only
      split
      · dsimp only
        generalize hW : warn_abandoned env repo db2 (List.map Prod.fst (buildRewrittenOids ps)) = W
        have hW1 : txIdsMade W = [] := by
          rw [← hW]; exact warn_abandoned_txIds env repo db2 _
        have hW2 : appendedEvents W = [] := by
          rw [← hW]; exact warn_abandoned_appended env repo db2 _
        simp only [List.cons_append, List.append_assoc]
        apply txDisciplineOk_makeTx_cons
        · simp only [txIdsMade_append, txIdsMade, List.nil_append, hW1]
          cases hsp : input.rewriteType == "amend" && repo.isRebaseUnderway <;>
            cases hmv : repo.extraPostRewriteFileExists <;>
              simp [hsp, hmv, txIdsMade]
        · simp only [appendedEvents_append, appendedEvents, Action.eventsOf, List.nil_append,
            List.append_nil, hW2]
          cases hsp : input.rewriteType == "amend" && repo.isRebaseUnderway <;>
            cases hmv : repo.extraPostRewriteFileExists <;>
              simpa [hsp, hmv, appendedEvents, Action.eventsOf] using hes
      · dsimp only
        simp only [List.cons_append, List.append_assoc]
        apply txDisciplineOk_makeTx_cons
        · simp only [txIdsMade_append, txIdsMade, List.nil_append]
          cases hsp : input.rewriteType == "amend" && repo.isRebaseUnderway <;>
            cases hmv : repo.extraPostRewriteFileExists <;>
              simp [hsp, hmv, txIdsMade]
        · simp only [appendedEvents_append, appendedEvents, Action.eventsOf, List.nil_append,
            List.append_nil]
          cases hsp : input.rewriteType == "amend" && repo.isRebaseUnderway <;>
            cases hmv : repo.extraPostRewriteFileExists <;>
              simpa [hsp, hmv, appendedEvents, Action.eventsOf] using hes

theorem hook_reference_transaction_txDiscipline (transactionState : String) (now : Nat)
    (lines : List String) (db : EventLogDb) :
    txDisciplineOk (hook_reference_transaction transactionState now lines db).trace = true := by
  unfold hook_reference_transaction make_transaction_id
  cases htx : transactionState == "committed" with
  | false => simp [htx, txDisciplineOk]
  | true =>
    dsimp only
    simp only [htx, if_true]
    have hes := collectRefTxnEvents_events_tx now db.nextTxId lines
    cases hempty : (collectRefTxnEvents now db.nextTxId lines).2.isEmpty with
    | true =>
      simp only [hempty, if_true]
      apply txDisciplineOk_makeTx_cons
      · exact collectRefTxnEvents_logs_txIds now db.nextTxId lines
      · rw [collectRefTxnEvents_logs_appended]
        intro e he
        cases he
    | false =>
      cases hadd : add_events { db with nextTxId := db.nextTxId + 1 }
          (collectRefTxnEvents now db.nextTxId lines).2 with
      | error e =>
        dsimp only
        simp only [hempty, Bool.false_eq_true, if_false, hadd]
        simp only [List.cons_append]
        apply txDisciplineOk_makeTx_cons
        · rw [txIdsMade_append, collectRefTxnEvents_logs_txIds]
          simp [txIdsMade]
        · rw [appendedEvents_append, collectRefTxnEvents_logs_appended]
          simpa [appendedEvents, Action.eventsOf] using hes
      | ok db2 =>
        dsimp only
        simp only [hempty, Bool.false_eq_true, if_false, hadd]
        simp only [List.cons_append]
        apply txDisciplineOk_makeTx_cons
        · rw [txIdsMade_append, collectRefTxnEvents_logs_txIds]
          simp [txIdsMade]
        · rw [appendedEvents_append, collectRefTxnEvents_logs_appended]
          simpa [appendedEvents, Action.eventsOf] using hes

theorem hook_post_checkout_txDiscipline (previousHeadOid currentHeadOid : String)
    (isBranchCheckout : Int) (now : Nat) (db : EventLogDb) :
    txDisciplineOk
      (hook_post_checkout previousHeadOid currentHeadOid isBranchCheckout now db).trace
      = true := by
  unfold hook_post_checkout make_transaction_id
  split
  · rfl
  · dsimp only
    cases hold : MaybeZeroOid.parse previousHeadOid with
    | error e => rfl
    | ok oldOid =>
      dsimp only
      cases hnew : MaybeZeroOid.parse currentHeadOid with
      | error e => rfl
      | ok newOid =>
        dsimp only
        cases hadd : add_events { db with nextTxId := db.nextTxId + 1 }
            [Event.refUpdate now db.nextTxId "HEAD" oldOid newOid none] with
        | error e =>
          simp [txDisciplineOk, txIdsMade, appendedEvents, Action.eventsOf, Event.txId]
        | ok db2 =>
          simp [txDisciplineOk, txIdsMade, appendedEvents, Action.eventsOf, Event.txId]

theorem hook_post_commit_txDiscipline (repo : Repo) (now : Nat) (db : EventLogDb) :
    txDisciplineOk (hook_post_commit repo now db).trace = true := by
  unfold hook_post_commit make_transaction_id
  cases hhead : repo.headOid with
  | none => rfl
  | some commitOid =>
    dsimp only
    cases hfind : repo.findCommit commitOid with
    | none => rfl
    | some commit =>
      dsimp only
      cases hadd : add_events { db with nextTxId := db.nextTxId + 1 }
          [Event.commit commit.timeSeconds db.nextTxId commit.oid] with
      | error e =>
        simp [txDisciplineOk, txIdsMade, appendedEvents, Action.eventsOf, Event.txId]
      | ok db2 =>
        simp [txDisciplineOk, txIdsMade, appendedEvents, Action.eventsOf, Event.txId]

/-! ## Further hook characterizations -/

theorem hook_post_rewrite_spurious_actions (env : CoreEnv) (repo : Repo)
    (input : PostRewriteInput) (db : EventLogDb) (ps : List (NonZeroOid × MaybeZeroOid))
    (es : List Event)
    (h : parse_rewrite_lines input.timestamp db.nextTxId input.stdinLines = .ok (ps, es))
    (hsp : (input.rewriteType == "amend" && repo.isRebaseUnderway) = true) :
    ∀ a ∈ (hook_post_rewrite env repo input db).trace,
      a.isOutput = false ∧ a.isWarnReport = false ∧ a.isConstructReplayer = false := by
  intro a ha
  unfold hook_post_rewrite make_transaction_id at ha
  dsimp only at ha
  rw [h] at ha
  dsimp only at ha
  rw [hsp] at ha
  cases hadd : add_events { db with nextTxId := db.nextTxId + 1 } es with
  | error e =>
    rw [hadd] at ha
    simp only [if_true, List.nil_append] at ha
    rcases List.mem_cons.mp ha with rfl | ha
    · exact ⟨rfl, rfl, rfl⟩
    · rcases List.mem_singleton.mp ha with rfl
      exact ⟨rfl, rfl, rfl⟩
  | ok db2 =>
    rw [hadd] at ha
    dsimp only at ha
    rw [if_neg (by simp)] at ha
    cases hmv : repo.extraPostRewriteFileExists <;> simp [hmv] at ha
    · rcases ha with rfl | rfl <;> exact ⟨rfl, rfl, rfl⟩
    · rcases ha with rfl | rfl | rfl <;> exact ⟨rfl, rfl, rfl⟩

theorem hook_post_checkout_result (prev cur : String) (b : Int) (now : Nat) (db : EventLogDb)
    (hb : b ≠ 0) (oldOid newOid : MaybeZeroOid)
    (hold : MaybeZeroOid.parse prev = .ok oldOid)
    (hnew : MaybeZeroOid.parse cur = .ok newOid) :
    (hook_post_checkout prev cur b now db).result
      = add_events { db with nextTxId := db.nextTxId + 1 }
          [Event.refUpdate now db.nextTxId "HEAD" oldOid newOid none] := by
  unfold hook_post_checkout make_transaction_id
  rw [if_neg hb]
  dsimp only
  rw [hold]
  dsimp only
  rw [hnew]
  dsimp only
  cases hadd : add_events { db with nextTxId := db.nextTxId + 1 }
      [Event.refUpdate now db.nextTxId "HEAD" oldOid newOid none] with
  | error e => rfl
  | ok db2 => rfl

theorem hook_post_commit_result (repo : Repo) (now : Nat) (db : EventLogDb) (o : NonZeroOid)
    (c : Commit) (hhead : repo.headOid = some o) (hfind : repo.findCommit o = some c) :
    (hook_post_commit repo now db).result
      = add_events { db with nextTxId := db.nextTxId + 1 }
          [Event.commit c.timeSeconds db.nextTxId c.oid] := by
  unfold hook_post_commit make_transaction_id
  rw [hhead]
  dsimp only
  rw [hfind]
  dsimp only
  cases hadd : add_events { db with nextTxId := db.nextTxId + 1 }
      [Event.commit c.timeSeconds db.nextTxId c.oid] with
  | error e => rfl
  | ok db2 => rfl

theorem hook_post_commit_appended (repo : Repo) (now : Nat) (db : EventLogDb) (o : NonZeroOid)
    (c : Commit) (hhead : repo.headOid = some o) (hfind : repo.findCommit o = some c) :
    appendedEvents (hook_post_commit repo now db).trace
      = [Event.commit c.timeSeconds db.nextTxId c.oid] := by
  unfold hook_post_commit make_transaction_id
  rw [hhead]
  dsimp only
  rw [hfind]
  dsimp only
  cases hadd : add_events { db with nextTxId := db.nextTxId + 1 }
      [Event.commit c.timeSeconds db.nextTxId c.oid] with
  | error e => simp [appendedEvents, Action.eventsOf]
  | ok db2 => simp [appendedEvents, Action.eventsOf, appendedEvents_append]

/-! ## Concrete fixtures for witnesses -/

/-- A core environment whose graph is empty and whose abandoned-children
query never reports anything. -/
def trivialEnv : CoreEnv := ⟨fun _ _ _ _ _ _ => [], fun _ _ _ _ => none⟩

/-- A core environment whose abandoned-children query always reports one
abandoned child. -/
def reportingEnv : CoreEnv := ⟨fun _ _ _ _ _ _ => [], fun _ _ _ _ => some (.zero, [⟨"ab"⟩])⟩

/-- A repository with no HEAD, no branches, and all hook features off. -/
def plainRepo : Repo := ⟨none, ⟨"aa"⟩, [], fun _ => none, false, false, false⟩

/-- `plainRepo` with the abandoned-commit warning enabled. -/
def warnRepo : Repo := ⟨none, ⟨"aa"⟩, [], fun _ => none, false, true, false⟩

/-- A repository mid-rebase, with the abandoned-commit warning enabled. -/
def rebasingRepo : Repo := ⟨none, ⟨"aa"⟩, [], fun _ => none, true, true, false⟩

/-- A repository whose HEAD oid is present but cannot be resolved to a
commit. -/
def headNoCommitRepo : Repo := ⟨some ⟨"aa"⟩, ⟨"aa"⟩, [], fun _ => none, false, false, false⟩

/-- A repository whose HEAD commit resolves (commit time 7). -/
def headRepo : Repo := ⟨some ⟨"aa"⟩, ⟨"aa"⟩, [], fun o => some ⟨o, 7⟩, false, false, false⟩

/-- An empty event-log database. -/
def emptyDb : EventLogDb := ⟨[], 0, false⟩

/-- An empty event-log database whose appends fail. -/
def failingDb : EventLogDb := ⟨[], 0, true⟩

/-! ## The claims -/

/-- C1, counterexample: the claim states that for every hook parsing
line-protocol input — including the post-rewrite hook — a single
malformed line is logged and skipped and the remaining lines are still
appended.  At the concrete batch `["zz yy", "aa bb"]` (first line has a
non-hex old oid, second line is well formed) the post-rewrite hook instead
returns an error and appends nothing, so the well-formed remainder of the
batch is lost. -/
theorem c1_counterexample_post_rewrite_aborts :
    isErrorResult (hook_post_rewrite trivialEnv plainRepo
        ⟨"rebase", ["zz yy", "aa bb"], 0⟩ emptyDb).result = true
      ∧ appendedEvents (hook_post_rewrite trivialEnv plainRepo
          ⟨"rebase", ["zz yy", "aa bb"], 0⟩ emptyDb).trace = [] := by
  constructor <;> rfl

/-- C1 (amended): for the reference-transaction hook, a single malformed
line (bad oid or wrong field count) is logged and skipped rather than
aborting the hook: the events appended for a batch containing the
malformed line are exactly those for the batch without it, the final
result is unchanged, and an error is logged.  (The post-rewrite hook, by
contrast, aborts on the first malformed line; see the counterexample.) -/
theorem c1_reference_transaction_skips_malformed_line (pre post : List String) (bad : String)
    (db : EventLogDb) (now : Nat)
    (hbad : isErrorResult (parse_reference_transaction_line bad now db.nextTxId) = true) :
    appendedEvents (hook_reference_transaction "committed" now (pre ++ bad :: post) db).trace
        = appendedEvents (hook_reference_transaction "committed" now (pre ++ post) db).trace
      ∧ (hook_reference_transaction "committed" now (pre ++ bad :: post) db).result
        = (hook_reference_transaction "committed" now (pre ++ post) db).result
      ∧ ∃ a ∈ (hook_reference_transaction "committed" now (pre ++ bad :: post) db).trace,
          a.isLogError = true := by
  have hnone : parse_event_opt now db.nextTxId bad = none := by
    unfold parse_event_opt
    cases h : parse_reference_transaction_line bad now db.nextTxId with
    | error e => rfl
    | ok o =>
      rw [h] at hbad
      cases hbad
  have hfm : (pre ++ bad :: post).filterMap (parse_event_opt now db.nextTxId)
      = (pre ++ post).filterMap (parse_event_opt now db.nextTxId) := by
    simp [List.filterMap_append, List.filterMap_cons, hnone]
  refine ⟨?_, ?_, ?_⟩
  · rw [hook_reference_transaction_appended, hook_reference_transaction_appended, hfm]
  · rw [hook_reference_transaction_result, hook_reference_transaction_result,
      collectRefTxnEvents_events, collectRefTxnEvents_events, hfm]
  · obtain ⟨a, ha, hae⟩ := collectRefTxnEvents_has_logError now db.nextTxId pre post bad hbad
    refine ⟨a, ?_, hae⟩
    rw [hook_reference_transaction_trace]
    exact List.mem_cons_of_mem _ (List.mem_append_left _ ha)

/-- C1 witness: at the concrete batch with malformed line `"zz"` inserted
before the well-formed line `"aa bb refs/heads/x"`, the
reference-transaction hook appends exactly the events of the batch without
the malformed line. -/
theorem c1_reference_transaction_skips_malformed_line_witness :
    appendedEvents (hook_reference_transaction "committed" 0
        ["zz", "aa bb refs/heads/x"] emptyDb).trace
      = appendedEvents (hook_reference_transaction "committed" 0
          ["aa bb refs/heads/x"] emptyDb).trace :=
  (c1_reference_transaction_skips_malformed_line [] ["aa bb refs/heads/x"] "zz" emptyDb 0
    (by decide)).1

/-- C2: a reference-transaction line naming an excluded transient ref
(one for which `should_ignore_ref_updates` returns `true`) parses to no
event at all, and consequently no event appended by the
reference-transaction hook ever carries an excluded ref name. -/
theorem c2_excluded_refs_produce_no_events :
    (∀ line now tx o n r, bufSplit ' ' line = [o, n, r] →
        should_ignore_ref_updates r = true →
        parse_reference_transaction_line line now tx = .ok none)
      ∧ (∀ transactionState now lines (db : EventLogDb) e,
          e ∈ appendedEvents (hook_reference_transaction transactionState now lines db).trace →
          ∀ rn, Event.refNameO e = some rn → should_ignore_ref_updates rn = false) := by
  constructor
  · exact parse_reference_transaction_line_ignored
  · intro transactionState now lines db e he rn hrn
    cases htx : transactionState == "committed" with
    | false =>
      unfold hook_reference_transaction at he
      rw [htx] at he
      cases he
    | true =>
      have : transactionState = "committed" := by
        have := (beq_iff_eq (a := transactionState) (b := "committed")).mp htx
        exact this
      subst this
      rw [hook_reference_transaction_appended] at he
      obtain ⟨line, -, hp⟩ := List.mem_filterMap.mp he
      exact (parse_event_opt_tx_and_shape now db.nextTxId line e hp).2.2 rn hrn

/-- C2 witness: the concrete line `"aa bb ORIG_HEAD"` names the excluded
transient ref `ORIG_HEAD` and parses to no event. -/
theorem c2_excluded_refs_produce_no_events_witness :
    parse_reference_transaction_line "aa bb ORIG_HEAD" 0 0 = .ok none :=
  c2_excluded_refs_produce_no_events.1 "aa bb ORIG_HEAD" 0 0 "aa" "bb" "ORIG_HEAD"
    (by decide) (by decide)

/-- C3: in every invocation of the four event-appending hooks, the trace
obeys the transaction discipline: no events are appended before
`make_transaction_id` is called, it is called at most once (hence exactly
once whenever events are appended), and every appended event carries the
allocated transaction id. -/
theorem c3_transaction_id_discipline :
    (∀ env repo input db, txDisciplineOk (hook_post_rewrite env repo input db).trace = true)
      ∧ (∀ transactionState now lines db,
          txDisciplineOk (hook_reference_transaction transactionState now lines db).trace
            = true)
      ∧ (∀ prev cur b now db,
          txDisciplineOk (hook_post_checkout prev cur b now db).trace = true)
      ∧ (∀ repo now db, txDisciplineOk (hook_post_commit repo now db).trace = true) :=
  ⟨hook_post_rewrite_txDiscipline, hook_reference_transaction_txDiscipline,
    hook_post_checkout_txDiscipline, hook_post_commit_txDiscipline⟩

/-- C4: the hooks map line-protocol input to typed events one-to-one: the
post-rewrite hook appends one `RewriteEvent` per stdin line (in order,
each parsed from its line); the reference-transaction hook appends exactly
the `RefUpdateEvent`s produced by the well-formed non-excluded lines; the
post-commit hook appends exactly one `CommitEvent` carrying the resolved
HEAD commit's oid and timestamp. -/
theorem c4_line_protocol_one_to_one :
    (∀ env repo input (db : EventLogDb) ps es,
        parse_rewrite_lines input.timestamp db.nextTxId input.stdinLines = .ok (ps, es) →
        appendedEvents (hook_post_rewrite env repo input db).trace = es
          ∧ es.length = input.stdinLines.length
          ∧ List.Forall₂ (fun line e => ∃ p,
              parse_rewrite_line input.timestamp db.nextTxId line = .ok (p, e))
              input.stdinLines es)
      ∧ (∀ now lines (db : EventLogDb),
          appendedEvents (hook_reference_transaction "committed" now lines db).trace
              = lines.filterMap (parse_event_opt now db.nextTxId)
            ∧ ∀ e ∈ appendedEvents (hook_reference_transaction "committed" now lines db).trace,
                Event.isRefUpdate e = true)
      ∧ (∀ repo now (db : EventLogDb) o c,
          repo.headOid = some o → repo.findCommit o = some c →
          appendedEvents (hook_post_commit repo now db).trace
            = [Event.commit c.timeSeconds db.nextTxId c.oid]) := by
  refine ⟨?_, ?_, ?_⟩
  · intro env repo input db ps es h
    exact ⟨hook_post_rewrite_appended env repo input db ps es h,
      parse_rewrite_lines_length _ _ _ _ _ h,
      parse_rewrite_lines_forall2 _ _ _ _ _ h⟩
  · intro now lines db
    refine ⟨hook_reference_transaction_appended now lines db, ?_⟩
    intro e he
    rw [hook_reference_transaction_appended] at he
    obtain ⟨line, -, hp⟩ := List.mem_filterMap.mp he
    exact (parse_event_opt_tx_and_shape now db.nextTxId line e hp).2.1
  · exact fun repo now db o c hh hf => hook_post_commit_appended repo now db o c hh hf

/-- C4 witness: at the concrete inputs, the post-rewrite hook appends the
one `RewriteEvent` of its one stdin line and the post-commit hook appends
the one `CommitEvent` of the resolved HEAD commit. -/
theorem c4_line_protocol_one_to_one_witness :
    appendedEvents (hook_post_rewrite trivialEnv plainRepo
        ⟨"rebase", ["aa bb"], 0⟩ emptyDb).trace
      = [Event.rewrite 0 0 (MaybeZeroOid.nonZero ⟨"aa"⟩) (MaybeZeroOid.nonZero ⟨"bb"⟩)]
    ∧ appendedEvents (hook_post_commit headRepo 0 emptyDb).trace
      = [Event.commit 7 0 ⟨"aa"⟩] :=
  ⟨(c4_line_protocol_one_to_one.1 trivialEnv plainRepo ⟨"rebase", ["aa bb"], 0⟩ emptyDb
      [(⟨"aa"⟩, MaybeZeroOid.nonZero ⟨"bb"⟩)]
      [Event.rewrite 0 0 (MaybeZeroOid.nonZero ⟨"aa"⟩) (MaybeZeroOid.nonZero ⟨"bb"⟩)]
      rfl).1,
    c4_line_protocol_one_to_one.2.2 headRepo 0 emptyDb ⟨"aa"⟩ ⟨⟨"aa"⟩, 7⟩ rfl rfl⟩

/-- C5: whenever the post-rewrite hook constructs an `EventReplayer` (for
the abandoned-commit warning), the snapshot it is built over is the
event-log contents *after* this invocation's `RewriteEvent`s were
appended: the stale pre-append log is never used. -/
theorem c5_replayer_built_after_append (env : CoreEnv) (repo : Repo) (input : PostRewriteInput)
    (db : EventLogDb) (snap : List Event)
    (h : Action.constructReplayer snap ∈ (hook_post_rewrite env repo input db).trace) :
    ∃ ps es, parse_rewrite_lines input.timestamp db.nextTxId input.stdinLines = .ok (ps, es)
      ∧ snap = db.events ++ es :=
  hook_post_rewrite_constructReplayer env repo input db snap h

/-- C5 witness: in a concrete invocation that reaches the warning logic,
the replayer snapshot is exactly the empty prior log extended with the
appended rewrite event. -/
theorem c5_replayer_built_after_append_witness :
    ∃ ps es, parse_rewrite_lines 0 0 ["aa bb"] = .ok (ps, es)
      ∧ [Event.rewrite 0 0 (MaybeZeroOid.nonZero ⟨"aa"⟩) (MaybeZeroOid.nonZero ⟨"bb"⟩)]
        = emptyDb.events ++ es :=
  c5_replayer_built_after_append trivialEnv warnRepo ⟨"rebase", ["aa bb"], 0⟩ emptyDb
    [Event.rewrite 0 0 (MaybeZeroOid.nonZero ⟨"aa"⟩) (MaybeZeroOid.nonZero ⟨"bb"⟩)]
    (by decide)

/-- C6: the abandoned-commit warning aggregates per-oid query results over
the batch into deduplicated sets: each abandoned child oid and each
abandoned branch name appears at most once, whatever the per-oid query
returns, and the reported sets in any `warnReport` are duplicate-free. -/
theorem c6_abandoned_results_deduplicated :
    (∀ fac bm oids, (aggregate_abandoned fac bm oids).1.Nodup
        ∧ (aggregate_abandoned fac bm oids).2.Nodup)
      ∧ (∀ env repo db oids cs bs,
          Action.warnReport cs bs ∈ warn_abandoned env repo db oids →
          cs.Nodup ∧ bs.Nodup) := by
  constructor
  · exact aggregate_abandoned_nodup
  · intro env repo db oids cs bs h
    rcases warn_abandoned_mem env repo db oids _ h with heq | ⟨cs', bs', heq, h1, h2⟩
    · cases heq
    · injection heq with e1 e2
      subst e1
      subst e2
      exact ⟨h1, h2⟩

/-- C6 witness: in a concrete invocation whose per-oid query reports one
abandoned child, the reported sets are duplicate-free. -/
theorem c6_abandoned_results_deduplicated_witness :
    ([(⟨"ab"⟩ : NonZeroOid)].Nodup ∧ ([] : List String).Nodup) :=
  c6_abandoned_results_deduplicated.2 reportingEnv plainRepo emptyDb [⟨"cd"⟩] [⟨"ab"⟩] []
    (by decide)

/-- C7: when the event-log append fails, every event-appending hook
propagates the failure as an error result instead of swallowing it: the
post-rewrite hook (for any batch that parses), the reference-transaction
hook (for any batch producing events), the post-checkout hook (for any
branch checkout whose oids parse), and the post-commit hook (whenever a
HEAD commit resolves). -/
theorem c7_append_failure_propagates (db : EventLogDb) (hfail : db.appendFails = true) :
    (∀ env repo input ps es,
        parse_rewrite_lines input.timestamp db.nextTxId input.stdinLines = .ok (ps, es) →
        isErrorResult (hook_post_rewrite env repo input db).result = true)
      ∧ (∀ now lines,
          (lines.filterMap (parse_event_opt now db.nextTxId)).isEmpty = false →
          isErrorResult (hook_reference_transaction "committed" now lines db).result = true)
      ∧ (∀ prev cur (b : Int) now oldOid newOid, b ≠ 0 →
          MaybeZeroOid.parse prev = .ok oldOid → MaybeZeroOid.parse cur = .ok newOid →
          isErrorResult (hook_post_checkout prev cur b now db).result = true)
      ∧ (∀ repo now o c, repo.headOid = some o → repo.findCommit o = some c →
          isErrorResult (hook_post_commit repo now db).result = true) := by
  refine ⟨?_, ?_, ?_, ?_⟩
  · intro env repo input ps es h
    rw [hook_post_rewrite_result env repo input db ps es h, add_events_isError]
    exact hfail
  · intro now lines hne
    rw [hook_reference_transaction_result, collectRefTxnEvents_events, hne]
    simp only [Bool.false_eq_true, if_false]
    rw [add_events_isError]
    exact hfail
  · intro prev cur b now oldOid newOid hb hold hnew
    rw [hook_post_checkout_result prev cur b now db hb oldOid newOid hold hnew,
      add_events_isError]
    exact hfail
  · intro repo now o c hh hf
    rw [hook_post_commit_result repo now db o c hh hf, add_events_isError]
    exact hfail

/-- C7 witness: with a failing event log, all four hooks report an error
at concrete inputs. -/
theorem c7_append_failure_propagates_witness :
    isErrorResult (hook_post_rewrite trivialEnv plainRepo
        ⟨"rebase", ["aa bb"], 0⟩ failingDb).result = true
      ∧ isErrorResult (hook_reference_transaction "committed" 0
          ["aa bb refs/heads/x"] failingDb).result = true
      ∧ isErrorResult (hook_post_checkout "aa" "bb" 1 0 failingDb).result = true
      ∧ isErrorResult (hook_post_commit headRepo 0 failingDb).result = true := by
  have h := c7_append_failure_propagates failingDb rfl
  exact ⟨h.1 trivialEnv plainRepo ⟨"rebase", ["aa bb"], 0⟩
      [(⟨"aa"⟩, MaybeZeroOid.nonZero ⟨"bb"⟩)]
      [Event.rewrite 0 0 (MaybeZeroOid.nonZero ⟨"aa"⟩) (MaybeZeroOid.nonZero ⟨"bb"⟩)] rfl,
    h.2.1 0 ["aa bb refs/heads/x"] (by decide),
    h.2.2.1 "aa" "bb" 1 0 (MaybeZeroOid.nonZero ⟨"aa"⟩) (MaybeZeroOid.nonZero ⟨"bb"⟩)
      (by decide) rfl rfl,
    h.2.2.2 headRepo 0 ⟨"aa"⟩ ⟨⟨"aa"⟩, 7⟩ rfl rfl⟩

theorem NonZeroOid_parse_zero_isError (s : String) (hz : isZeroOidStr s = true) :
    isErrorResult (NonZeroOid.parse s) = true := by
  unfold NonZeroOid.parse MaybeZeroOid.parse
  cases hv : isValidOidStr s with
  | false => simp [hv, isErrorResult]
  | true => simp [hv, hz, isErrorResult]

/-- C8: oids are parsed into the typed forms right at the post-rewrite
hook boundary: a line whose old-oid field is the all-zero sentinel fails
to parse (so no event with a zero old oid can ever be produced); every
successfully parsed line yields a `RewriteEvent` whose old oid is the
non-zero oid of the first field; and a well-formed line whose new-oid
field is the all-zero sentinel parses to an event whose new oid is the
zero sentinel, meaning the old commit was dropped. -/
theorem c8_oids_parsed_at_boundary :
    (∀ ts tx line o n rest, strSplit ' ' (rustTrim line) = o :: n :: rest →
        isZeroOidStr o = true →
        isErrorResult (parse_rewrite_line ts tx line) = true)
      ∧ (∀ ts tx line p e, parse_rewrite_line ts tx line = .ok (p, e) →
          e = Event.rewrite ts tx (MaybeZeroOid.nonZero p.1) p.2)
      ∧ (∀ ts tx line o n rest oid, strSplit ' ' (rustTrim line) = o :: n :: rest →
          NonZeroOid.parse o = .ok oid → isValidOidStr n = true → isZeroOidStr n = true →
          parse_rewrite_line ts tx line
            = .ok ((oid, MaybeZeroOid.zero),
                Event.rewrite ts tx (MaybeZeroOid.nonZero oid) MaybeZeroOid.zero)) := by
  refine ⟨?_, ?_, ?_⟩
  · intro ts tx line o n rest hsplit hz
    unfold parse_rewrite_line
    rw [hsplit]
    dsimp only
    have herr := NonZeroOid_parse_zero_isError o hz
    cases hp : NonZeroOid.parse o with
    | error e => rfl
    | ok oid =>
      rw [hp] at herr
      cases herr
  · exact parse_rewrite_line_ok
  · intro ts tx line o n rest oid hsplit hparse hvn hzn
    unfold parse_rewrite_line
    rw [hsplit]
    dsimp only
    rw [hparse]
    dsimp only
    unfold MaybeZeroOid.parse
    rw [hvn, hzn]
    rfl

/-- C8 witness: the concrete line `"00 bb"` (zero old oid) fails to
parse, and the concrete line `"aa 00"` parses to a rewrite event whose
new oid is the zero sentinel. -/
theorem c8_oids_parsed_at_boundary_witness :
    isErrorResult (parse_rewrite_line 0 0 "00 bb") = true
      ∧ parse_rewrite_line 0 0 "aa 00"
        = .ok ((⟨"aa"⟩, MaybeZeroOid.zero),
            Event.rewrite 0 0 (MaybeZeroOid.nonZero ⟨"aa"⟩) MaybeZeroOid.zero) :=
  ⟨c8_oids_parsed_at_boundary.1 0 0 "00 bb" "00" "bb" [] (by decide) (by decide),
    c8_oids_parsed_at_boundary.2.2 0 0 "aa 00" "aa" "00" [] ⟨"aa"⟩ (by decide) rfl
      (by decide) (by decide)⟩

/-- C9: the post-commit hook distinguishes the two missing-object cases:
with no HEAD oid at all it logs a warning and returns success without
appending any event; with a HEAD oid that the repository cannot resolve to
a commit it fails with a defect-level `BUG:` error, again appending
nothing. -/
theorem c9_post_commit_missing_head_vs_missing_commit (repo : Repo) (now : Nat)
    (db : EventLogDb) :
    (repo.headOid = none →
        (hook_post_commit repo now db).result = .ok db
          ∧ appendedEvents (hook_post_commit repo now db).trace = []
          ∧ (hook_post_commit repo now db).trace.any Action.isLogWarning = true)
      ∧ (∀ o, repo.headOid = some o → repo.findCommit o = none →
          isBugError (hook_post_commit repo now db).result = true
            ∧ appendedEvents (hook_post_commit repo now db).trace = []) := by
  constructor
  · intro hh
    unfold hook_post_commit
    rw [hh]
    exact ⟨rfl, rfl, rfl⟩
  · intro o hh hf
    unfold hook_post_commit
    rw [hh]
    dsimp only
    rw [hf]
    exact ⟨rfl, rfl⟩

/-- C9 witness: at a repository with no HEAD the hook succeeds with a
logged warning and no events; at a repository whose HEAD oid resolves to
no commit it fails with a `BUG:` error. -/
theorem c9_post_commit_missing_head_vs_missing_commit_witness :
    ((hook_post_commit plainRepo 0 emptyDb).result = .ok emptyDb
        ∧ appendedEvents (hook_post_commit plainRepo 0 emptyDb).trace = []
        ∧ (hook_post_commit plainRepo 0 emptyDb).trace.any Action.isLogWarning = true)
      ∧ (isBugError (hook_post_commit headNoCommitRepo 0 emptyDb).result = true
          ∧ appendedEvents (hook_post_commit headNoCommitRepo 0 emptyDb).trace = []) :=
  ⟨(c9_post_commit_missing_head_vs_missing_commit plainRepo 0 emptyDb).1 rfl,
    (c9_post_commit_missing_head_vs_missing_commit headNoCommitRepo 0 emptyDb).2
      ⟨"aa"⟩ rfl rfl⟩

/-- C10: when the post-rewrite hook fires for a spurious event
(`rewrite_type` is `amend` while a rebase is underway), the parsed
`RewriteEvent`s are still appended exactly as in the non-spurious case
(same appended events, and on success the database gains exactly those
events); the spurious-event check suppresses only the progress message and
the abandoned-commit warning (no output, no warning report, no replayer
construction appears in the trace). -/
theorem c10_spurious_rewrite_still_records_events (env : CoreEnv) (repo : Repo)
    (input : PostRewriteInput) (db : EventLogDb) (ps : List (NonZeroOid × MaybeZeroOid))
    (es : List Event)
    (h : parse_rewrite_lines input.timestamp db.nextTxId input.stdinLines = .ok (ps, es))
    (hty : input.rewriteType = "amend") (hreb : repo.isRebaseUnderway = true) :
    appendedEvents (hook_post_rewrite env repo input db).trace = es
      ∧ appendedEvents (hook_post_rewrite env repo input db).trace
          = appendedEvents
              (hook_post_rewrite env { repo with isRebaseUnderway := false } input db).trace
      ∧ (∀ db2, (hook_post_rewrite env repo input db).result = .ok db2 →
          db2.events = db.events ++ es)
      ∧ (∀ a ∈ (hook_post_rewrite env repo input db).trace,
          a.isOutput = false ∧ a.isWarnReport = false ∧ a.isConstructReplayer = false) := by
  have hsp : (input.rewriteType == "amend" && repo.isRebaseUnderway) = true := by
    simp [hty, hreb]
  refine ⟨hook_post_rewrite_appended env repo input db ps es h, ?_, ?_,
    hook_post_rewrite_spurious_actions env repo input db ps es h hsp⟩
  · rw [hook_post_rewrite_appended env repo input db ps es h,
      hook_post_rewrite_appended env { repo with isRebaseUnderway := false } input db ps es h]
  · intro db2 hres
    rw [hook_post_rewrite_result env repo input db ps es h] at hres
    exact (add_events_ok _ _ _ hres).1

/-- C10 witness: a concrete spurious `amend`-during-rebase invocation
still appends its rewrite event, identically to the non-spurious
counterpart. -/
theorem c10_spurious_rewrite_still_records_events_witness :
    appendedEvents (hook_post_rewrite trivialEnv rebasingRepo
        ⟨"amend", ["aa bb"], 0⟩ emptyDb).trace
      = [Event.rewrite 0 0 (MaybeZeroOid.nonZero ⟨"aa"⟩) (MaybeZeroOid.nonZero ⟨"bb"⟩)] :=
  (c10_spurious_rewrite_still_records_events trivialEnv rebasingRepo
    ⟨"amend", ["aa bb"], 0⟩ emptyDb [(⟨"aa"⟩, MaybeZeroOid.nonZero ⟨"bb"⟩)]
    [Event.rewrite 0 0 (MaybeZeroOid.nonZero ⟨"aa"⟩) (MaybeZeroOid.nonZero ⟨"bb"⟩)]
    rfl rfl rfl).1

end GitBranchless
